import Mathlib

/-!
Verification of the objective-canvas core: the camera/viewport transform,
the hit-test predicate, and the per-node drag/hover/select interaction
state machine driven by the frame loop.

Numbers are modelled as rationals (exact arithmetic); `Math.tan` is kept
abstract as a function parameter `tan : ℚ → ℚ`, since every property of
interest is algebraic in the value `tan fov`.
-/

/-- 2D vector, from `src/types.ts` (`Vec2`). Only the operations the
interaction and camera code uses are embedded. -/
structure Vec2 where
  x : ℚ
  y : ℚ
deriving DecidableEq, Repr

namespace Vec2

/-- `Vec2.sum` from `src/types.ts`. -/
def sum (a b : Vec2) : Vec2 := ⟨a.x + b.x, a.y + b.y⟩

/-- `Vec2.diff` from `src/types.ts`. -/
def diff (a b : Vec2) : Vec2 := ⟨a.x - b.x, a.y - b.y⟩

/-- `Vec2.zero` from `src/types.ts`. -/
def zero : Vec2 := ⟨0, 0⟩

/-- `Vec2.one` from `src/types.ts`. -/
def one : Vec2 := ⟨1, 1⟩

theorem ext_xy {a b : Vec2} (hx : a.x = b.x) (hy : a.y = b.y) : a = b := by
  cases a; cases b; simp_all

end Vec2

/-- Hit test from `src/utils.ts` (`inside`): the source is
`pos.x < pos2.x && pos.x + size.x > pos2.x && pos.y < pos2.y && pos.y + size.y > pos2.y`. -/
def inside (pos size pos2 : Vec2) : Bool :=
  decide (pos.x < pos2.x) && decide (pos.x + size.x > pos2.x) &&
  decide (pos.y < pos2.y) && decide (pos.y + size.y > pos2.y)

/-- Viewport record from `src/types.ts`. -/
structure Viewport where
  left : ℚ
  right : ℚ
  top : ℚ
  bottom : ℚ
  width : ℚ
  height : ℚ
  scale : Vec2
deriving DecidableEq, Repr

/-- Camera singleton state from `src/camera.ts`. -/
structure Camera where
  distance : ℚ
  lookAt : Vec2
  fov : ℚ
  viewport : Viewport
  locked : Bool
deriving DecidableEq, Repr

namespace Camera

/-- `Camera.update` from `src/camera.ts`: recomputes the viewport from
`distance`, `fov`, `lookAt` and the canvas pixel size `cw × ch`.
`tan` abstracts `Math.tan`. -/
def update (tan : ℚ → ℚ) (cw ch : ℚ) (c : Camera) : Camera :=
  let aspectRatio := cw / ch
  let width := c.distance * tan c.fov
  let height := width / aspectRatio
  let left := c.lookAt.x - width / 2
  let top := c.lookAt.y - height / 2
  { c with viewport :=
      { left := left
        top := top
        right := left + width
        bottom := top + height
        width := width
        height := height
        scale := ⟨cw / width, ch / height⟩ } }

/-- `Camera.moveTo` from `src/camera.ts`: sets `lookAt`, then `update()`. -/
def moveTo (tan : ℚ → ℚ) (cw ch : ℚ) (c : Camera) (pos : Vec2) : Camera :=
  update tan cw ch { c with lookAt := pos }

/-- `Camera.zoomTo` from `src/camera.ts`: sets `distance`, then `update()`. -/
def zoomTo (tan : ℚ → ℚ) (cw ch : ℚ) (c : Camera) (distance : ℚ) : Camera :=
  update tan cw ch { c with distance := distance }

/-- `Camera.screenToWorld` from `src/camera.ts`. The source performs no
writes, so it is embedded as a pure function. -/
def screenToWorld (c : Camera) (pos : Vec2) : Vec2 :=
  ⟨pos.x / c.viewport.scale.x + c.viewport.left,
   pos.y / c.viewport.scale.y + c.viewport.top⟩

/-- `Camera.worldToScreen` from `src/camera.ts`. The source performs no
writes, so it is embedded as a pure function. -/
def worldToScreen (c : Camera) (pos : Vec2) : Vec2 :=
  ⟨(pos.x - c.viewport.left) * c.viewport.scale.x,
   (pos.y - c.viewport.top) * c.viewport.scale.y⟩

end Camera

/-- C1 counterexample: the claim asserts `inside` is pos-inclusive
(half-open `[pos.x, pos.x+size.x)`), so the point `(0, 5)` on the left
edge of the box at `(0,0)` with size `(10,10)` would be inside; the code
uses a strict `<` on both sides and reports it outside. -/
theorem inside_pos_edge_counterexample :
    (0:ℚ) ≤ 0 ∧ (0:ℚ) < 0 + 10 ∧ (0:ℚ) ≤ 5 ∧ (5:ℚ) < 0 + 10 ∧
    inside ⟨0, 0⟩ ⟨10, 10⟩ ⟨0, 5⟩ = false := by
  with_unfolding_all decide

/-- C1 (amended): `inside(pos, size, point)` is true iff `point.x` lies in
the OPEN interval `(pos.x, pos.x+size.x)` and `point.y` in
`(pos.y, pos.y+size.y)` — strict on both sides, so a point with
`point.x == pos.x` or `point.y == pos.y` is reported outside. -/
theorem inside_iff_open_box (pos size pos2 : Vec2) :
    inside pos size pos2 = true ↔
      (pos.x < pos2.x ∧ pos2.x < pos.x + size.x ∧
       pos.y < pos2.y ∧ pos2.y < pos.y + size.y) := by
  simp [inside, and_assoc]

/-- C5: for any camera whose viewport scale components are nonzero,
`worldToScreen` and `screenToWorld` are exact inverses of one another on
the same viewport snapshot. -/
theorem screen_world_roundtrip (c : Camera) (p q : Vec2)
    (hx : c.viewport.scale.x ≠ 0) (hy : c.viewport.scale.y ≠ 0) :
    c.worldToScreen (c.screenToWorld p) = p ∧
    c.screenToWorld (c.worldToScreen q) = q := by
  constructor <;>
    · apply Vec2.ext_xy <;>
        simp [Camera.worldToScreen, Camera.screenToWorld] <;>
        field_simp

/-- A fixed camera used to instantiate the camera theorems at concrete
inputs. -/
def sampleCamera : Camera :=
  { distance := 1000
    lookAt := ⟨7, -3⟩
    fov := 1
    viewport :=
      { left := -5, right := 11, top := 2, bottom := 10,
        width := 16, height := 8, scale := ⟨2, 4⟩ }
    locked := false }

/-- C5 witness: the round trip at the concrete camera `sampleCamera` and
points `(3, 5)` and `(-2, 9)`. -/
theorem screen_world_roundtrip_witness :
    sampleCamera.worldToScreen (sampleCamera.screenToWorld ⟨3, 5⟩) = ⟨3, 5⟩ ∧
    sampleCamera.screenToWorld (sampleCamera.worldToScreen ⟨-2, 9⟩) = ⟨-2, 9⟩ :=
  screen_world_roundtrip sampleCamera ⟨3, 5⟩ ⟨-2, 9⟩
    (by with_unfolding_all decide) (by with_unfolding_all decide)

/-- C6: after `Camera.update`, the viewport satisfies every equation of the
recomputation contract: `width = distance * tan(fov)`,
`height = width / (cw/ch)`, `left/top` center the rectangle on `lookAt`,
`right - left = width`, `bottom - top = height`, and
`scale = (cw/width, ch/height)`. The nonzeroness hypotheses mirror the
claim's provisos on the divisions performed. -/
theorem update_viewport_postcondition (tan : ℚ → ℚ) (cw ch : ℚ) (c : Camera)
    (hch : ch ≠ 0) (hcw : cw ≠ 0) (hwidth : c.distance * tan c.fov ≠ 0) :
    (Camera.update tan cw ch c).viewport.width = c.distance * tan c.fov ∧
    (Camera.update tan cw ch c).viewport.height =
      (Camera.update tan cw ch c).viewport.width / (cw / ch) ∧
    (Camera.update tan cw ch c).viewport.left =
      c.lookAt.x - (Camera.update tan cw ch c).viewport.width / 2 ∧
    (Camera.update tan cw ch c).viewport.top =
      c.lookAt.y - (Camera.update tan cw ch c).viewport.height / 2 ∧
    (Camera.update tan cw ch c).viewport.right -
      (Camera.update tan cw ch c).viewport.left =
      (Camera.update tan cw ch c).viewport.width ∧
    (Camera.update tan cw ch c).viewport.bottom -
      (Camera.update tan cw ch c).viewport.top =
      (Camera.update tan cw ch c).viewport.height ∧
    (Camera.update tan cw ch c).viewport.scale.x =
      cw / (Camera.update tan cw ch c).viewport.width ∧
    (Camera.update tan cw ch c).viewport.scale.y =
      ch / (Camera.update tan cw ch c).viewport.height := by
  refine ⟨rfl, rfl, rfl, rfl, ?_, ?_, rfl, rfl⟩ <;>
    · simp only [Camera.update]
      ring

/-- C6 witness: the postcondition at `sampleCamera` with a canvas of
`800 × 600` and `tan` the identity function. -/
theorem update_viewport_postcondition_witness :
    (Camera.update (fun q => q) 800 600 sampleCamera).viewport.width =
      sampleCamera.distance * (fun q : ℚ => q) sampleCamera.fov ∧
    (Camera.update (fun q => q) 800 600 sampleCamera).viewport.height =
      (Camera.update (fun q => q) 800 600 sampleCamera).viewport.width / (800 / 600) ∧
    (Camera.update (fun q => q) 800 600 sampleCamera).viewport.left =
      sampleCamera.lookAt.x -
        (Camera.update (fun q => q) 800 600 sampleCamera).viewport.width / 2 ∧
    (Camera.update (fun q => q) 800 600 sampleCamera).viewport.top =
      sampleCamera.lookAt.y -
        (Camera.update (fun q => q) 800 600 sampleCamera).viewport.height / 2 ∧
    (Camera.update (fun q => q) 800 600 sampleCamera).viewport.right -
      (Camera.update (fun q => q) 800 600 sampleCamera).viewport.left =
      (Camera.update (fun q => q) 800 600 sampleCamera).viewport.width ∧
    (Camera.update (fun q => q) 800 600 sampleCamera).viewport.bottom -
      (Camera.update (fun q => q) 800 600 sampleCamera).viewport.top =
      (Camera.update (fun q => q) 800 600 sampleCamera).viewport.height ∧
    (Camera.update (fun q => q) 800 600 sampleCamera).viewport.scale.x =
      800 / (Camera.update (fun q => q) 800 600 sampleCamera).viewport.width ∧
    (Camera.update (fun q => q) 800 600 sampleCamera).viewport.scale.y =
      600 / (Camera.update (fun q => q) 800 600 sampleCamera).viewport.height :=
  update_viewport_postcondition (fun q => q) 800 600 sampleCamera
    (by with_unfolding_all decide) (by with_unfolding_all decide)
    (by with_unfolding_all decide)

/-- C8: `zoomTo(d)` is exactly "set `distance := d`, then `update()`" for
every `d` (no clamping), and `moveTo(p)` is exactly "set `lookAt := p`,
then `update()`"; neither consults the `locked` flag (they behave
identically whatever `locked` is, and leave it unchanged). -/
theorem zoomTo_moveTo_no_clamp_no_lock (tan : ℚ → ℚ) (cw ch d : ℚ)
    (p : Vec2) (c : Camera) :
    Camera.zoomTo tan cw ch c d = Camera.update tan cw ch { c with distance := d } ∧
    (Camera.zoomTo tan cw ch c d).distance = d ∧
    (Camera.zoomTo tan cw ch c d).locked = c.locked ∧
    Camera.moveTo tan cw ch c p = Camera.update tan cw ch { c with lookAt := p } ∧
    (Camera.moveTo tan cw ch c p).lookAt = p ∧
    (Camera.moveTo tan cw ch c p).locked = c.locked :=
  ⟨rfl, rfl, rfl, rfl, rfl, rfl⟩

/-- C10: frame effect of the camera operations. `update` leaves
`distance`, `lookAt`, `fov` and `locked` unchanged (it writes only the
viewport); `moveTo` additionally changes only `lookAt`; `zoomTo`
additionally changes only `distance`. `screenToWorld` and `worldToScreen`
are embedded as pure functions (`Camera → Vec2 → Vec2`) because the source
performs no writes, so they change no camera state by construction. -/
theorem camera_frame_effect (tan : ℚ → ℚ) (cw ch d : ℚ) (p : Vec2) (c : Camera) :
    (Camera.update tan cw ch c).distance = c.distance ∧
    (Camera.update tan cw ch c).lookAt = c.lookAt ∧
    (Camera.update tan cw ch c).fov = c.fov ∧
    (Camera.update tan cw ch c).locked = c.locked ∧
    (Camera.moveTo tan cw ch c p).distance = c.distance ∧
    (Camera.moveTo tan cw ch c p).fov = c.fov ∧
    (Camera.moveTo tan cw ch c p).locked = c.locked ∧
    (Camera.zoomTo tan cw ch c d).lookAt = c.lookAt ∧
    (Camera.zoomTo tan cw ch c d).fov = c.fov ∧
    (Camera.zoomTo tan cw ch c d).locked = c.locked :=
  ⟨rfl, rfl, rfl, rfl, rfl, rfl, rfl, rfl, rfl, rfl⟩

/-! ## Interaction model

The drag/hover/select state machine of `CanvasObject.tick` (object module)
together with the global `Mouse` singleton (input module) and the stale-click
deselect step of the frame driver (`src/renderer.ts`, `draw`).

`tick()` recurses into children before running the node's own interaction
logic; since the interaction logic is identical for every node and only
touches the node's own state and the global singleton, the tree traversal is
flattened here into a sequence of per-node steps, one per node, in traversal
order. Object identity (`===` on references, unique `id` strings in the
driver's comparison) is modelled by the node's index in the population plus
a numeric `id` field. `Camera.lock()` / `Camera.unlock()` appear as the
boolean `cameraLocked`, and `Mouse.events.emit("select")` as the counter
`selectEmits`. -/

/-- Per-node interaction flags, `MouseState` from `src/types.ts`. -/
structure MouseState where
  selected : Bool
  hovering : Bool
  dragging : Bool
  draggable : Bool
  dragOffset : Vec2
deriving DecidableEq, Repr

/-- A `CanvasObject` from the object module, flattened (see module comment):
`pos`, `size`, the unique `id`, and the interaction `state`. -/
structure CanvasObject where
  pos : Vec2
  size : Vec2
  id : Nat
  state : MouseState
deriving DecidableEq, Repr

/-- Global state of a population of `n` registered nodes plus the `Mouse`
singleton fields the interaction logic reads and writes (`worldPos`,
`leftDown`, and the `hovering` / `dragging` / `selected` owner references,
here indices into the population). -/
structure World (n : Nat) where
  nodes : Fin n → CanvasObject
  worldPos : Vec2
  leftDown : Bool
  hovering : Option (Fin n)
  dragging : Option (Fin n)
  selected : Option (Fin n)
  cameraLocked : Bool
  selectEmits : Nat

/-- Replace node `i`. -/
def setNode {n : Nat} (w : World n) (i : Fin n) (o : CanvasObject) : World n :=
  { w with nodes := Function.update w.nodes i o }

/-- Drag start, first block of `CanvasObject.tick`:
`if (this.state.hovering && !this.state.dragging && !Mouse.dragging && Mouse.leftDown)`
then lock the camera, take global drag ownership, set `dragging`, and record
`dragOffset = pos - worldPos`. -/
def dragStartStep {n : Nat} (w : World n) (i : Fin n) : World n :=
  let o := w.nodes i
  if o.state.hovering && !o.state.dragging && w.dragging.isNone && w.leftDown then
    { setNode w i
        { o with state :=
            { o.state with dragging := true, dragOffset := o.pos.diff w.worldPos } } with
      dragging := some i, cameraLocked := true }
  else w

/-- Drag continuation, second block of `CanvasObject.tick`:
`if (this.state.dragging) this.moveTo(Mouse.worldPos.sum(this.state.dragOffset))`. -/
def dragMoveStep {n : Nat} (w : World n) (i : Fin n) : World n :=
  let o := w.nodes i
  if o.state.dragging then
    setNode w i { o with pos := w.worldPos.sum o.state.dragOffset }
  else w

/-- Drag release, third block of `CanvasObject.tick`:
`if (this.state.dragging && !Mouse.leftDown)` then unlock the camera, drop
global drag ownership, clear `dragging`, demote the previously selected
node's flag, promote this node to the global selection, and emit "select". -/
def dragReleaseStep {n : Nat} (w : World n) (i : Fin n) : World n :=
  let o := w.nodes i
  if o.state.dragging && !w.leftDown then
    let w1 := { setNode w i { o with state := { o.state with dragging := false } } with
                dragging := none, cameraLocked := false }
    let w2 := match w1.selected with
      | some k =>
          if (w1.nodes k).state.selected then
            setNode w1 k
              { w1.nodes k with state := { (w1.nodes k).state with selected := false } }
          else w1
      | none => w1
    let o2 := w2.nodes i
    { setNode w2 i { o2 with state := { o2.state with selected := true } } with
      selected := some i, selectEmits := w2.selectEmits + 1 }
  else w

/-- Hover step, last block of `CanvasObject.tick`:
`if ((!Mouse.hovering || Mouse.hovering === this) && inside(this.pos, this.size, Mouse.worldPos))`
acquire hover ownership; `else if (Mouse.hovering === this)` release it. -/
def hoverStep {n : Nat} (w : World n) (i : Fin n) : World n :=
  let o := w.nodes i
  if (w.hovering.isNone || decide (w.hovering = some i)) &&
      inside o.pos o.size w.worldPos then
    { setNode w i { o with state := { o.state with hovering := true } } with
      hovering := some i }
  else if w.hovering = some i then
    { setNode w i { o with state := { o.state with hovering := false } } with
      hovering := none }
  else w

/-- One node's own part of `CanvasObject.tick` (children flattened away):
the three drag blocks guarded by `this.state.draggable`, then the hover
block. -/
def tickOne {n : Nat} (w : World n) (i : Fin n) : World n :=
  let w1 := if (w.nodes i).state.draggable then
      dragReleaseStep (dragMoveStep (dragStartStep w i) i) i
    else w
  hoverStep w1 i

/-- The tick phase of the frame driver: `for (const object of objects) object.tick()`. -/
def tickAll {n : Nat} (w : World n) : World n :=
  (List.finRange n).foldl tickOne w

/-- The stale-click deselect step of the frame driver (`src/renderer.ts`):
`if (Mouse.leftDown && Mouse.selected && prevSelected === Mouse.selected?.id)`
then clear the selected node's flag, clear the global selection, and emit
"select". `prev` is the id snapshot taken before the tick phase. -/
def deselectStep {n : Nat} (w : World n) (prev : Option Nat) : World n :=
  match w.selected with
  | some k =>
      if w.leftDown && decide (prev = some ((w.nodes k).id)) then
        { setNode w k
            { w.nodes k with state := { (w.nodes k).state with selected := false } } with
          selected := none, selectEmits := w.selectEmits + 1 }
      else w
  | none => w

/-- One frame of the driver's tick half (`src/renderer.ts`, `draw`): snapshot
the selected id, tick every object, then run the stale-click deselect. -/
def frameStep {n : Nat} (w : World n) : World n :=
  let prev := w.selected.map fun k => (w.nodes k).id
  deselectStep (tickAll w) prev

/-- Input and driver events that mutate the interaction state: mouse-move
(new world position), primary button down/up, a single node's tick, and the
driver's deselect step with an arbitrary snapshot. Every run of the real
system is a sequence of these. -/
inductive Event (n : Nat) where
  | move (p : Vec2)
  | down
  | up
  | tick (i : Fin n)
  | deselect (prev : Option Nat)
  | frame

/-- Apply one event. -/
def applyEvent {n : Nat} (w : World n) : Event n → World n
  | .move p => { w with worldPos := p }
  | .down => { w with leftDown := true }
  | .up => { w with leftDown := false }
  | .tick i => tickOne w i
  | .deselect prev => deselectStep w prev
  | .frame => frameStep w

/-- Run a sequence of events. -/
def run {n : Nat} (w : World n) (evs : List (Event n)) : World n :=
  evs.foldl applyEvent w

/-- The mirror invariant between per-node flags and the `Mouse` singleton's
owner references. -/
def MirrorInv {n : Nat} (w : World n) : Prop :=
  (∀ i, (w.nodes i).state.dragging = true ↔ w.dragging = some i) ∧
  (∀ i, (w.nodes i).state.hovering = true ↔ w.hovering = some i) ∧
  (∀ i, (w.nodes i).state.selected = true ↔ w.selected = some i)

/-- The initial interaction state: no global owners, all per-node
`hovering` / `dragging` / `selected` flags false (the constructor's
defaults); `draggable`, positions and sizes arbitrary. -/
def InitFlags {n : Nat} (w : World n) : Prop :=
  w.hovering = none ∧ w.dragging = none ∧ w.selected = none ∧
  ∀ i, (w.nodes i).state.dragging = false ∧ (w.nodes i).state.hovering = false ∧
    (w.nodes i).state.selected = false

@[simp] theorem setNode_nodes {n : Nat} (w : World n) (i : Fin n) (o : CanvasObject)
    (j : Fin n) : (setNode w i o).nodes j = if j = i then o else w.nodes j := by
  simp [setNode, Function.update_apply]

@[simp] theorem setNode_worldPos {n : Nat} (w : World n) (i : Fin n) (o : CanvasObject) :
    (setNode w i o).worldPos = w.worldPos := rfl

@[simp] theorem setNode_leftDown {n : Nat} (w : World n) (i : Fin n) (o : CanvasObject) :
    (setNode w i o).leftDown = w.leftDown := rfl

@[simp] theorem setNode_hovering {n : Nat} (w : World n) (i : Fin n) (o : CanvasObject) :
    (setNode w i o).hovering = w.hovering := rfl

@[simp] theorem setNode_dragging {n : Nat} (w : World n) (i : Fin n) (o : CanvasObject) :
    (setNode w i o).dragging = w.dragging := rfl

@[simp] theorem setNode_selected {n : Nat} (w : World n) (i : Fin n) (o : CanvasObject) :
    (setNode w i o).selected = w.selected := rfl

@[simp] theorem setNode_selectEmits {n : Nat} (w : World n) (i : Fin n) (o : CanvasObject) :
    (setNode w i o).selectEmits = w.selectEmits := rfl

theorem mirror_dragStartStep {n : Nat} {w : World n} (i : Fin n) (h : MirrorInv w) :
    MirrorInv (dragStartStep w i) := by
  obtain ⟨hd, hh, hs⟩ := h
  dsimp only [dragStartStep]
  split
  case isTrue hc =>
    simp only [Bool.and_eq_true, Bool.not_eq_true', Option.isNone_iff_eq_none] at hc
    obtain ⟨⟨⟨hch, hcd⟩, hnone⟩, hld⟩ := hc
    refine ⟨fun j => ?_, fun j => ?_, fun j => ?_⟩
    · by_cases hj : j = i
      · subst hj; simp
      · have h1 := hd j
        rw [hnone] at h1
        simp only [setNode_nodes, if_neg hj, h1]
        have hne : ¬i = j := fun e => hj e.symm
        exact iff_of_false (by simp) (by simp [hne])
    · by_cases hj : j = i
      · subst hj; simpa using hh j
      · simp only [setNode_nodes, if_neg hj]
        exact hh j
    · by_cases hj : j = i
      · subst hj; simpa using hs j
      · simp only [setNode_nodes, if_neg hj]
        exact hs j
  case isFalse => exact ⟨hd, hh, hs⟩

theorem mirror_dragMoveStep {n : Nat} {w : World n} (i : Fin n) (h : MirrorInv w) :
    MirrorInv (dragMoveStep w i) := by
  obtain ⟨hd, hh, hs⟩ := h
  dsimp only [dragMoveStep]
  split
  case isTrue =>
    refine ⟨fun j => ?_, fun j => ?_, fun j => ?_⟩
    · by_cases hj : j = i
      · subst hj; simpa using hd j
      · simp only [setNode_nodes, if_neg hj, setNode_dragging]; exact hd j
    · by_cases hj : j = i
      · subst hj; simpa using hh j
      · simp only [setNode_nodes, if_neg hj, setNode_hovering]; exact hh j
    · by_cases hj : j = i
      · subst hj; simpa using hs j
      · simp only [setNode_nodes, if_neg hj, setNode_selected]; exact hs j
  case isFalse => exact ⟨hd, hh, hs⟩

theorem mirror_hoverStep {n : Nat} {w : World n} (i : Fin n) (h : MirrorInv w) :
    MirrorInv (hoverStep w i) := by
  obtain ⟨hd, hh, hs⟩ := h
  dsimp only [hoverStep]
  split
  case isTrue hc =>
    simp only [Bool.and_eq_true, Bool.or_eq_true, Option.isNone_iff_eq_none,
      decide_eq_true_eq] at hc
    obtain ⟨hown, hin⟩ := hc
    refine ⟨fun j => ?_, fun j => ?_, fun j => ?_⟩
    · by_cases hj : j = i
      · subst hj; simpa using hd j
      · simp only [setNode_nodes, if_neg hj]; exact hd j
    · by_cases hj : j = i
      · subst hj; simp
      · have hne : ¬(some i = some j) := by
          simp only [Option.some.injEq]
          exact fun e => hj e.symm
        simp only [setNode_nodes, if_neg hj]
        rcases hown with hnone | hsome
        · have h1 := hh j
          rw [hnone] at h1
          exact iff_of_false (fun hf => by simpa using h1.mp hf) hne
        · have h1 := hh j
          rw [hsome] at h1
          exact h1
    · by_cases hj : j = i
      · subst hj; simpa using hs j
      · simp only [setNode_nodes, if_neg hj]; exact hs j
  case isFalse hc1 =>
    split
    case isTrue hsome =>
      refine ⟨fun j => ?_, fun j => ?_, fun j => ?_⟩
      · by_cases hj : j = i
        · subst hj; simpa using hd j
        · simp only [setNode_nodes, if_neg hj]; exact hd j
      · by_cases hj : j = i
        · subst hj; simp
        · have h1 := hh j
          rw [hsome] at h1
          simp only [setNode_nodes, if_neg hj]
          refine iff_of_false (fun hf => ?_) (by simp)
          have := h1.mp hf
          simp only [Option.some.injEq] at this
          exact hj this.symm
      · by_cases hj : j = i
        · subst hj; simpa using hs j
        · simp only [setNode_nodes, if_neg hj]; exact hs j
    case isFalse => exact ⟨hd, hh, hs⟩

/-- Characterization of `dragReleaseStep` when its guard fires
(`dragging` set and the button up): global drag cleared, camera unlocked,
this node promoted to the selection, the previously selected node's flag
demoted, one "select" emission, everything else untouched. -/
theorem dragReleaseStep_proj {n : Nat} (w : World n) (i : Fin n)
    (hcd : (w.nodes i).state.dragging = true) (hnl : w.leftDown = false) :
    (dragReleaseStep w i).dragging = none ∧
    (dragReleaseStep w i).selected = some i ∧
    (dragReleaseStep w i).hovering = w.hovering ∧
    (dragReleaseStep w i).leftDown = w.leftDown ∧
    (dragReleaseStep w i).worldPos = w.worldPos ∧
    (∀ j, ((dragReleaseStep w i).nodes j).state.dragging =
      if j = i then false else (w.nodes j).state.dragging) ∧
    (∀ j, ((dragReleaseStep w i).nodes j).state.hovering =
      (w.nodes j).state.hovering) ∧
    (∀ j, ((dragReleaseStep w i).nodes j).pos = (w.nodes j).pos) ∧
    (∀ j, ((dragReleaseStep w i).nodes j).state.selected =
      if j = i then true else
      if w.selected = some j then false else (w.nodes j).state.selected) := by
  have hguard : ((w.nodes i).state.dragging && !w.leftDown) = true := by
    rw [hcd, hnl]
    rfl
  refine ⟨?_, ?_, ?_, ?_, ?_, fun j => ?_, fun j => ?_, fun j => ?_, fun j => ?_⟩ <;>
    dsimp only [dragReleaseStep] <;>
    rw [hguard] <;>
    simp only [eq_self_iff_true, if_true, setNode_selected] <;>
    rcases hsel : w.selected with _ | k <;>
    simp only [hsel, setNode_nodes] <;>
    first
    | rfl
    | (split_ifs <;> simp_all <;> (try (split_ifs <;> simp_all)))

theorem dragReleaseStep_id_of_not_dragging {n : Nat} (w : World n) (i : Fin n)
    (hcd : (w.nodes i).state.dragging = false) : dragReleaseStep w i = w := by
  dsimp only [dragReleaseStep]
  rw [hcd]
  simp

theorem dragReleaseStep_id_of_leftDown {n : Nat} (w : World n) (i : Fin n)
    (hld : w.leftDown = true) : dragReleaseStep w i = w := by
  dsimp only [dragReleaseStep]
  rw [hld]
  simp

theorem mirror_dragReleaseStep {n : Nat} {w : World n} (i : Fin n) (h : MirrorInv w) :
    MirrorInv (dragReleaseStep w i) := by
  obtain ⟨hd, hh, hs⟩ := h
  by_cases hcd : (w.nodes i).state.dragging = true
  · by_cases hnl : w.leftDown = false
    · obtain ⟨pd, ps, ph, _, _, pnd, pnh, _, pns⟩ := dragReleaseStep_proj w i hcd hnl
      have hdi : w.dragging = some i := (hd i).mp hcd
      refine ⟨fun j => ?_, fun j => ?_, fun j => ?_⟩
      · rw [pnd j, pd]
        by_cases hj : j = i
        · subst hj; simp
        · simp only [if_neg hj]
          refine iff_of_false (fun hf => ?_) (by simp)
          have := (hd j).mp hf
          rw [hdi] at this
          simp only [Option.some.injEq] at this
          exact hj this.symm
      · rw [pnh j, ph]
        exact hh j
      · rw [pns j, ps]
        by_cases hj : j = i
        · subst hj; simp
        · simp only [if_neg hj]
          have hne : ¬(some i = some j) := by
            simp only [Option.some.injEq]
            exact fun e => hj e.symm
          by_cases hsj : w.selected = some j
          · simp only [if_pos hsj]
            exact iff_of_false (by simp) hne
          · simp only [if_neg hsj]
            exact iff_of_false (fun hf => hsj ((hs j).mp hf)) hne
    · have hld : w.leftDown = true := by
        simpa using hnl
      rw [dragReleaseStep_id_of_leftDown w i hld]
      exact ⟨hd, hh, hs⟩
  · have hcd2 : (w.nodes i).state.dragging = false := by
      simpa using hcd
    rw [dragReleaseStep_id_of_not_dragging w i hcd2]
    exact ⟨hd, hh, hs⟩

theorem mirror_deselectStep {n : Nat} {w : World n} (prev : Option Nat)
    (h : MirrorInv w) : MirrorInv (deselectStep w prev) := by
  obtain ⟨hd, hh, hs⟩ := h
  dsimp only [deselectStep]
  split
  case h_1 k heq =>
    split
    case isTrue =>
      refine ⟨fun j => ?_, fun j => ?_, fun j => ?_⟩
      · by_cases hj : j = k
        · subst hj; simpa using hd j
        · simp only [setNode_nodes, if_neg hj]; exact hd j
      · by_cases hj : j = k
        · subst hj; simpa using hh j
        · simp only [setNode_nodes, if_neg hj]; exact hh j
      · refine iff_of_false (fun hf => ?_) (by simp)
        by_cases hj : j = k
        · subst hj; simp at hf
        · simp only [setNode_nodes, if_neg hj] at hf
          have := (hs j).mp (by simpa using hf)
          rw [heq] at this
          simp only [Option.some.injEq] at this
          exact hj this.symm
    case isFalse => exact ⟨hd, hh, hs⟩
  case h_2 => exact ⟨hd, hh, hs⟩

theorem mirror_tickOne {n : Nat} {w : World n} (i : Fin n) (h : MirrorInv w) :
    MirrorInv (tickOne w i) := by
  dsimp only [tickOne]
  split
  · exact mirror_hoverStep i
      (mirror_dragReleaseStep i (mirror_dragMoveStep i (mirror_dragStartStep i h)))
  · exact mirror_hoverStep i h

theorem mirror_foldl_tickOne {n : Nat} {w : World n} (l : List (Fin n))
    (h : MirrorInv w) : MirrorInv (l.foldl tickOne w) := by
  induction l generalizing w with
  | nil => exact h
  | cons a t ih => exact ih (mirror_tickOne a h)

theorem mirror_tickAll {n : Nat} {w : World n} (h : MirrorInv w) :
    MirrorInv (tickAll w) :=
  mirror_foldl_tickOne _ h

theorem mirror_frameStep {n : Nat} {w : World n} (h : MirrorInv w) :
    MirrorInv (frameStep w) :=
  mirror_deselectStep _ (mirror_tickAll h)

theorem mirror_applyEvent {n : Nat} {w : World n} (e : Event n) (h : MirrorInv w) :
    MirrorInv (applyEvent w e) := by
  obtain ⟨hd, hh, hs⟩ := h
  cases e
  case move => exact ⟨hd, hh, hs⟩
  case down => exact ⟨hd, hh, hs⟩
  case up => exact ⟨hd, hh, hs⟩
  case tick i => exact mirror_tickOne i ⟨hd, hh, hs⟩
  case deselect prev => exact mirror_deselectStep prev ⟨hd, hh, hs⟩
  case frame => exact mirror_frameStep ⟨hd, hh, hs⟩

theorem mirror_of_initFlags {n : Nat} {w : World n} (h : InitFlags w) : MirrorInv w := by
  obtain ⟨hh, hdg, hsel, hflags⟩ := h
  refine ⟨fun i => ?_, fun i => ?_, fun i => ?_⟩
  · rw [(hflags i).1, hdg]
    exact iff_of_false (by simp) (by simp)
  · rw [(hflags i).2.1, hh]
    exact iff_of_false (by simp) (by simp)
  · rw [(hflags i).2.2, hsel]
    exact iff_of_false (by simp) (by simp)

theorem mirror_run {n : Nat} {w : World n} (evs : List (Event n)) (h : MirrorInv w) :
    MirrorInv (run w evs) := by
  induction evs generalizing w with
  | nil => exact h
  | cons e rest ih => exact ih (mirror_applyEvent e h)

theorem dragStartStep_id_of_not_hovering {n : Nat} (w : World n) (i : Fin n)
    (hnh : (w.nodes i).state.hovering = false) : dragStartStep w i = w := by
  dsimp only [dragStartStep]
  rw [hnh]
  simp

theorem dragStartStep_id_of_dragging {n : Nat} (w : World n) (i : Fin n)
    (hd : (w.nodes i).state.dragging = true) : dragStartStep w i = w := by
  dsimp only [dragStartStep]
  rw [hd]
  simp

theorem dragStartStep_fire {n : Nat} (w : World n) (i : Fin n)
    (hh : (w.nodes i).state.hovering = true) (hnd : (w.nodes i).state.dragging = false)
    (hgd : w.dragging = none) (hld : w.leftDown = true) :
    dragStartStep w i =
      { setNode w i
          { w.nodes i with state :=
              { (w.nodes i).state with
                  dragging := true
                  dragOffset := (w.nodes i).pos.diff w.worldPos } } with
        dragging := some i, cameraLocked := true } := by
  dsimp only [dragStartStep]
  rw [hh, hnd, hgd, hld]
  simp

theorem dragMoveStep_id_of_not_dragging {n : Nat} (w : World n) (i : Fin n)
    (hnd : (w.nodes i).state.dragging = false) : dragMoveStep w i = w := by
  dsimp only [dragMoveStep]
  rw [hnd]
  simp

theorem dragMoveStep_eq_of_dragging {n : Nat} (w : World n) (i : Fin n)
    (hd : (w.nodes i).state.dragging = true) :
    dragMoveStep w i =
      setNode w i
        { w.nodes i with pos := w.worldPos.sum (w.nodes i).state.dragOffset } := by
  dsimp only [dragMoveStep]
  rw [hd]
  simp

theorem hoverStep_acquire {n : Nat} (w : World n) (i : Fin n)
    (hown : w.hovering = none ∨ w.hovering = some i)
    (hin : inside (w.nodes i).pos (w.nodes i).size w.worldPos = true) :
    hoverStep w i =
      { setNode w i { w.nodes i with state := { (w.nodes i).state with hovering := true } } with
        hovering := some i } := by
  dsimp only [hoverStep]
  rw [hin]
  rcases hown with hnone | hsome
  · rw [hnone]
    simp
  · rw [hsome]
    simp

theorem hoverStep_globals {n : Nat} (w : World n) (i : Fin n) :
    (hoverStep w i).dragging = w.dragging ∧
    (hoverStep w i).selected = w.selected ∧
    (hoverStep w i).leftDown = w.leftDown ∧
    (hoverStep w i).worldPos = w.worldPos ∧
    (hoverStep w i).selectEmits = w.selectEmits := by
  dsimp only [hoverStep]
  split_ifs <;> simp

theorem hoverStep_nodes_preserve {n : Nat} (w : World n) (i j : Fin n) :
    ((hoverStep w i).nodes j).pos = (w.nodes j).pos ∧
    ((hoverStep w i).nodes j).size = (w.nodes j).size ∧
    ((hoverStep w i).nodes j).id = (w.nodes j).id ∧
    ((hoverStep w i).nodes j).state.dragging = (w.nodes j).state.dragging ∧
    ((hoverStep w i).nodes j).state.draggable = (w.nodes j).state.draggable ∧
    ((hoverStep w i).nodes j).state.dragOffset = (w.nodes j).state.dragOffset ∧
    ((hoverStep w i).nodes j).state.selected = (w.nodes j).state.selected := by
  dsimp only [hoverStep]
  split_ifs <;> by_cases hj : j = i <;> simp [setNode_nodes, hj]

theorem dragStartStep_leftDown {n : Nat} (w : World n) (i : Fin n) :
    (dragStartStep w i).leftDown = w.leftDown := by
  dsimp only [dragStartStep]
  split <;> rfl

theorem dragMoveStep_leftDown {n : Nat} (w : World n) (i : Fin n) :
    (dragMoveStep w i).leftDown = w.leftDown := by
  dsimp only [dragMoveStep]
  split <;> rfl

theorem dragReleaseStep_leftDown {n : Nat} (w : World n) (i : Fin n) :
    (dragReleaseStep w i).leftDown = w.leftDown := by
  dsimp only [dragReleaseStep]
  split
  · rcases hsel : w.selected with _ | k <;>
      simp only [setNode_selected, hsel] <;>
      first
      | rfl
      | (split_ifs <;> rfl)
  · rfl

theorem hoverStep_leftDown {n : Nat} (w : World n) (i : Fin n) :
    (hoverStep w i).leftDown = w.leftDown := by
  dsimp only [hoverStep]
  split_ifs <;> rfl

theorem tickOne_leftDown {n : Nat} (w : World n) (i : Fin n) :
    (tickOne w i).leftDown = w.leftDown := by
  dsimp only [tickOne]
  split
  · rw [hoverStep_leftDown, dragReleaseStep_leftDown, dragMoveStep_leftDown,
      dragStartStep_leftDown]
  · rw [hoverStep_leftDown]

theorem foldl_tickOne_leftDown {n : Nat} (l : List (Fin n)) (w : World n) :
    (l.foldl tickOne w).leftDown = w.leftDown := by
  induction l generalizing w with
  | nil => rfl
  | cons a t ih => rw [List.foldl_cons, ih, tickOne_leftDown]

theorem tickAll_leftDown {n : Nat} (w : World n) :
    (tickAll w).leftDown = w.leftDown :=
  foldl_tickOne_leftDown _ w


/-- C9: starting from the initial interaction state (no global owners, all
per-node flags false), after any sequence of input events, node ticks and
driver deselect steps — in particular after every `tick()` and every
frame-driver deselect — the mirror invariant holds: a node's `dragging` /
`hovering` / `selected` flag is set exactly when that node is the one
referenced by `Mouse.dragging` / `Mouse.hovering` / `Mouse.selected`. -/
theorem mirror_invariant_reachable {n : Nat} (w0 : World n) (h : InitFlags w0)
    (evs : List (Event n)) : MirrorInv (run w0 evs) :=
  mirror_run evs (mirror_of_initFlags h)

/-- C7: global drag mutual exclusion. From the initial interaction state,
after any sequence of input events, node ticks and driver steps, at most
one node of the population has `dragging = true`, and a node has
`dragging = true` exactly when it is the node referenced by the global
`Mouse.dragging`. -/
theorem drag_mutual_exclusion {n : Nat} (w0 : World n) (h : InitFlags w0)
    (evs : List (Event n)) :
    (∀ i j, ((run w0 evs).nodes i).state.dragging = true →
      ((run w0 evs).nodes j).state.dragging = true → i = j) ∧
    (∀ i, ((run w0 evs).nodes i).state.dragging = true ↔
      (run w0 evs).dragging = some i) := by
  obtain ⟨hd, -, -⟩ := mirror_run evs (mirror_of_initFlags h)
  refine ⟨fun i j hi hj => ?_, hd⟩
  have h1 := (hd i).mp hi
  have h2 := (hd j).mp hj
  rw [h1] at h2
  exact Option.some.inj h2

/-- A single idle, draggable node at the origin, with the mouse at world
point `(25, 25)` (inside the node's `50 × 50` box) and the primary button
down; no global owners. -/
def idleWorld : World 1 :=
  { nodes := fun _ =>
      { pos := ⟨0, 0⟩, size := ⟨50, 50⟩, id := 7,
        state := { selected := false, hovering := false, dragging := false,
                   draggable := true, dragOffset := ⟨0, 0⟩ } }
    worldPos := ⟨25, 25⟩
    leftDown := true
    hovering := none
    dragging := none
    selected := none
    cameraLocked := false
    selectEmits := 0 }

theorem idleWorld_initFlags : InitFlags idleWorld :=
  ⟨rfl, rfl, rfl, fun _ => ⟨rfl, rfl, rfl⟩⟩

/-- C9 witness: the mirror invariant at the concrete one-node `idleWorld`
after two node ticks and one frame. -/
theorem mirror_invariant_reachable_witness :
    InitFlags idleWorld ∧
    MirrorInv (run idleWorld [Event.tick 0, Event.tick 0, Event.frame]) :=
  ⟨idleWorld_initFlags,
   mirror_invariant_reachable idleWorld idleWorld_initFlags
     [Event.tick 0, Event.tick 0, Event.frame]⟩

/-- C7 witness: drag mutual exclusion at the concrete one-node `idleWorld`
after two node ticks. -/
theorem drag_mutual_exclusion_witness :
    (∀ i j, ((run idleWorld [Event.tick 0, Event.tick 0]).nodes i).state.dragging = true →
      ((run idleWorld [Event.tick 0, Event.tick 0]).nodes j).state.dragging = true →
      i = j) ∧
    (∀ i, ((run idleWorld [Event.tick 0, Event.tick 0]).nodes i).state.dragging = true ↔
      (run idleWorld [Event.tick 0, Event.tick 0]).dragging = some i) :=
  drag_mutual_exclusion idleWorld idleWorld_initFlags [Event.tick 0, Event.tick 0]

/-- C2 counterexample: in `idleWorld` the single node is draggable, Idle
(not hovering, not dragging), no node owns global hover or drag, the mouse
is inside its box and the primary button is down — yet after one `tick()`
the node is only the hover owner, not the drag owner, because the drag
blocks run before the hover block inside `tick()`. -/
theorem hover_then_drag_one_tick_counterexample :
    (idleWorld.nodes 0).state.draggable = true ∧
    (idleWorld.nodes 0).state.hovering = false ∧
    (idleWorld.nodes 0).state.dragging = false ∧
    idleWorld.hovering = none ∧
    idleWorld.dragging = none ∧
    idleWorld.leftDown = true ∧
    inside (idleWorld.nodes 0).pos (idleWorld.nodes 0).size idleWorld.worldPos = true ∧
    (tickOne idleWorld 0).hovering = some 0 ∧
    (tickOne idleWorld 0).dragging = none ∧
    ((tickOne idleWorld 0).nodes 0).state.dragging = false := by
  with_unfolding_all decide

/-- On a tick of a node that is already hovered, not dragging, with no
global drag owner and the button down, the drag-start block fires: the
node becomes the global drag owner. -/
theorem tick_drag_start {n : Nat} (w : World n) (i : Fin n)
    (hdrag : (w.nodes i).state.draggable = true)
    (hh : (w.nodes i).state.hovering = true)
    (hnd : (w.nodes i).state.dragging = false)
    (hgd : w.dragging = none)
    (hld : w.leftDown = true) :
    ((tickOne w i).nodes i).state.dragging = true ∧
    (tickOne w i).dragging = some i := by
  dsimp only [tickOne]
  simp only [hdrag, if_true]
  rw [dragStartStep_fire w i hh hnd hgd hld]
  rw [dragMoveStep_eq_of_dragging _ i (by simp [setNode_nodes])]
  rw [dragReleaseStep_id_of_leftDown _ i (by simp [hld])]
  constructor
  · rw [(hoverStep_nodes_preserve _ i i).2.2.2.1]
    simp [setNode_nodes]
  · rw [(hoverStep_globals _ i).1]
    simp

/-- C2 (amended): within a single `tick()` the drag blocks are evaluated
BEFORE hover acquisition, so a draggable node in the Idle state with no
global hover or drag owner, the mouse inside its box and the primary
button down becomes only the global hover owner on that tick (its
`dragging` stays false and no global drag owner appears); on the next tick
with the same mouse state it also becomes the global drag owner. -/
theorem hover_tick_then_drag_tick {n : Nat} (w : World n) (i : Fin n)
    (hdrag : (w.nodes i).state.draggable = true)
    (hnh : (w.nodes i).state.hovering = false)
    (hnd : (w.nodes i).state.dragging = false)
    (hgh : w.hovering = none)
    (hgd : w.dragging = none)
    (hld : w.leftDown = true)
    (hin : inside (w.nodes i).pos (w.nodes i).size w.worldPos = true) :
    ((tickOne w i).nodes i).state.hovering = true ∧
    (tickOne w i).hovering = some i ∧
    ((tickOne w i).nodes i).state.dragging = false ∧
    (tickOne w i).dragging = none ∧
    ((tickOne (tickOne w i) i).nodes i).state.dragging = true ∧
    (tickOne (tickOne w i) i).dragging = some i := by
  have h1 : tickOne w i =
      { setNode w i
          { w.nodes i with state := { (w.nodes i).state with hovering := true } } with
        hovering := some i } := by
    dsimp only [tickOne]
    rw [if_pos hdrag]
    rw [dragStartStep_id_of_not_hovering w i hnh, dragMoveStep_id_of_not_dragging w i hnd,
      dragReleaseStep_id_of_leftDown w i hld]
    exact hoverStep_acquire w i (Or.inl hgh) hin
  refine ⟨?_, ?_, ?_, ?_, ?_, ?_⟩
  · rw [h1]; simp [setNode_nodes]
  · rw [h1]
  · rw [h1]; simp [setNode_nodes, hnd]
  · rw [h1]; simpa using hgd
  · exact (tick_drag_start (tickOne w i) i
      (by rw [h1]; simp [setNode_nodes, hdrag])
      (by rw [h1]; simp [setNode_nodes])
      (by rw [h1]; simp [setNode_nodes, hnd])
      (by rw [h1]; simpa using hgd)
      (by rw [h1]; simpa using hld)).1
  · exact (tick_drag_start (tickOne w i) i
      (by rw [h1]; simp [setNode_nodes, hdrag])
      (by rw [h1]; simp [setNode_nodes])
      (by rw [h1]; simp [setNode_nodes, hnd])
      (by rw [h1]; simpa using hgd)
      (by rw [h1]; simpa using hld)).2

/-- C2 witness: the amended two-tick behavior at the concrete `idleWorld`. -/
theorem hover_tick_then_drag_tick_witness :
    ((tickOne idleWorld 0).nodes 0).state.hovering = true ∧
    (tickOne idleWorld 0).hovering = some 0 ∧
    ((tickOne idleWorld 0).nodes 0).state.dragging = false ∧
    (tickOne idleWorld 0).dragging = none ∧
    ((tickOne (tickOne idleWorld 0) 0).nodes 0).state.dragging = true ∧
    (tickOne (tickOne idleWorld 0) 0).dragging = some 0 :=
  hover_tick_then_drag_tick idleWorld 0 rfl rfl rfl rfl rfl rfl
    (by with_unfolding_all decide)

/-- C3: the frame driver's stale-click deselect. In any frame where the
primary button is down, some node is selected after the tick phase, and the
id snapshot taken before the tick phase equals that node's id, the driver
clears the node's `selected` flag, clears the global selection, and emits
one "select" notification. No hypothesis constrains `dragging`, so this
fires even while a drag is actively in progress on the already-selected
node (dragging never alters `selected`). -/
theorem stale_click_deselect {n : Nat} (w : World n) (k : Fin n)
    (hld : w.leftDown = true)
    (hsel : (tickAll w).selected = some k)
    (hid : w.selected.map (fun j => (w.nodes j).id) = some ((tickAll w).nodes k).id) :
    ((frameStep w).nodes k).state.selected = false ∧
    (frameStep w).selected = none ∧
    (frameStep w).selectEmits = (tickAll w).selectEmits + 1 := by
  have hld2 : (tickAll w).leftDown = true := by
    rw [tickAll_leftDown]
    exact hld
  dsimp only [frameStep, deselectStep]
  simp only [hsel]
  rw [hld2, decide_eq_true hid]
  simp [setNode_nodes]

/-- A one-node world in which the node is simultaneously selected, hovered
and the global drag owner, with the button held down mid-drag. -/
def dragSelWorld : World 1 :=
  { nodes := fun _ =>
      { pos := ⟨0, 0⟩, size := ⟨50, 50⟩, id := 7,
        state := { selected := true, hovering := true, dragging := true,
                   draggable := true, dragOffset := ⟨-25, -25⟩ } }
    worldPos := ⟨100, 100⟩
    leftDown := true
    hovering := some 0
    dragging := some 0
    selected := some 0
    cameraLocked := true
    selectEmits := 0 }

/-- C3 witness: the deselect fires on `dragSelWorld` — while the selected
node is actively dragging. -/
theorem stale_click_deselect_witness :
    dragSelWorld.leftDown = true ∧
    ((tickAll dragSelWorld).nodes 0).state.dragging = true ∧
    ((frameStep dragSelWorld).nodes 0).state.selected = false ∧
    (frameStep dragSelWorld).selected = none ∧
    (frameStep dragSelWorld).selectEmits = (tickAll dragSelWorld).selectEmits + 1 := by
  have h := stale_click_deselect dragSelWorld 0 rfl
    (by with_unfolding_all decide) (by with_unfolding_all decide)
  exact ⟨rfl, by with_unfolding_all decide, h.1, h.2.1, h.2.2⟩

/-- C4: drag fidelity. On any tick of the node that owns the drag
(`dragging` set, button down), its position is set to
`worldMousePos + dragOffset`; with `dragOffset = p0 - m0` as recorded at
drag start, the new position is exactly `p0 + (m1 - m0)` for the current
mouse position `m1`, and both `dragging` and `dragOffset` are preserved,
so this holds at every later tick while the button stays down. -/
theorem drag_continuation_fidelity {n : Nat} (w : World n) (i : Fin n) (p0 m0 : Vec2)
    (hdrag : (w.nodes i).state.draggable = true)
    (hd : (w.nodes i).state.dragging = true)
    (hld : w.leftDown = true)
    (hoff : (w.nodes i).state.dragOffset = p0.diff m0) :
    ((tickOne w i).nodes i).pos = p0.sum (w.worldPos.diff m0) ∧
    ((tickOne w i).nodes i).state.dragging = true ∧
    ((tickOne w i).nodes i).state.dragOffset = p0.diff m0 := by
  dsimp only [tickOne]
  rw [if_pos hdrag]
  rw [dragStartStep_id_of_dragging w i hd]
  rw [dragMoveStep_eq_of_dragging w i hd]
  rw [dragReleaseStep_id_of_leftDown _ i (by simpa using hld)]
  refine ⟨?_, ?_, ?_⟩
  · rw [(hoverStep_nodes_preserve _ i i).1]
    simp only [setNode_nodes, if_pos rfl]
    rw [hoff]
    apply Vec2.ext_xy <;> simp [Vec2.sum, Vec2.diff] <;> ring
  · rw [(hoverStep_nodes_preserve _ i i).2.2.2.1]
    simp [setNode_nodes, hd]
  · rw [(hoverStep_nodes_preserve _ i i).2.2.2.2.2.1]
    simp [setNode_nodes, hoff]

/-- C4 witness: the mid-drag node of `dragSelWorld` (grabbed at world
`(25,25)` when it sat at `(0,0)`, mouse now at `(100,100)`) lands at
exactly `(75,75)` after its tick. -/
theorem drag_continuation_fidelity_witness :
    ((tickOne dragSelWorld 0).nodes 0).pos =
      Vec2.sum ⟨0, 0⟩ (dragSelWorld.worldPos.diff ⟨25, 25⟩) ∧
    ((tickOne dragSelWorld 0).nodes 0).state.dragging = true ∧
    ((tickOne dragSelWorld 0).nodes 0).state.dragOffset = Vec2.diff ⟨0, 0⟩ ⟨25, 25⟩ :=
  drag_continuation_fidelity dragSelWorld 0 ⟨0, 0⟩ ⟨25, 25⟩ rfl rfl rfl
    (by with_unfolding_all decide)
